import Mathlib

/-!
Verification of the weight-learning, scheduling and worker logic of the
asynchronous MFES optimizer (`examples/multi_fidelity/async_mq_mfes.py` and
`litebo/core/distributed/worker.py`).

Real numbers of the Python implementation are modelled as rationals `ℚ`;
numpy arrays as `List ℚ`.  Components that live outside the two source
files (the parent Hyperband class, the surrogate cluster, sklearn's KFold,
the random forest) enter as oracle inputs or are modelled from the spec,
each marked in its doc comment.
-/

/-- The list of index pairs `(idx, inner)` visited by the nested loops
`for idx in range(n): for inner in range(idx+1, n):` of
`calculate_preserving_order_num`. -/
def orderedPairs (n : ℕ) : List (ℕ × ℕ) :=
  (List.range n).flatMap (fun idx =>
    (List.range' (idx + 1) (n - (idx + 1))).map (fun inner => (idx, inner)))

/-- Shallow embedding of `async_mqMFES.calculate_preserving_order_num`
(lines 198-209).  The Python code counts a pair when
`bool(y_true[idx] > y_true[inner]) == bool(y_pred[idx] > y_pred[inner])`;
incrementing the two counters over the nested loops is rendered as the
length of a filter over the visited pairs. -/
def calculate_preserving_order_num (y_pred y_true : List ℚ) : ℕ × ℕ :=
  let pairs := orderedPairs y_pred.length
  let preserved := pairs.filter (fun pr =>
    decide (y_true.getD pr.1 0 > y_true.getD pr.2 0)
      == decide (y_pred.getD pr.1 0 > y_pred.getD pr.2 0))
  (preserved.length, pairs.length)

/-- Shallow embedding of lines 254-256 of `update_weight`
(`rank_loss_p_norm` final step):
`power_sum = np.sum(np.power(p, power_num)); new_weights = np.power(p, power_num) / power_sum`. -/
def pNormWeights (p : List ℚ) (powerNum : ℕ) : List ℚ :=
  let powerSum := (p.map (· ^ powerNum)).sum
  p.map (fun x => x ^ powerNum / powerSum)

/-- Membership in the visited pair list: exactly the pairs `i < j < n`. -/
theorem orderedPairs_mem (n i j : ℕ) : (i, j) ∈ orderedPairs n ↔ i < j ∧ j < n := by
  unfold orderedPairs
  simp only [List.mem_flatMap, List.mem_map, List.mem_range, List.mem_range'_1, Prod.mk.injEq]
  constructor
  · rintro ⟨a, ha, b, ⟨hb1, hb2⟩, rfl, rfl⟩
    omega
  · rintro ⟨hij, hj⟩
    exact ⟨i, by omega, ⟨j, ⟨by omega, by omega⟩, rfl, rfl⟩⟩

/-- Each index pair is visited at most once by the nested loops. -/
theorem orderedPairs_nodup (n : ℕ) : (orderedPairs n).Nodup := by
  unfold orderedPairs
  refine List.nodup_flatMap.2 ⟨fun idx _ => ?_, ?_⟩
  · exact List.Nodup.map (fun a b hab => by simpa using hab) (List.nodup_range' _ _)
  · refine (List.pairwise_lt_range _).imp ?_
    intro a b hab pr hpa hpb
    obtain ⟨x, _, rfl⟩ := List.mem_map.1 hpa
    obtain ⟨y, _, hy⟩ := List.mem_map.1 hpb
    exact absurd (congrArg Prod.fst hy).symm (by simpa using Nat.ne_of_lt hab)

/-- Comparing two decided propositions with Bool equality is deciding their
equivalence. -/
theorem beq_decide_iff (p q : Prop) [Decidable p] [Decidable q] :
    (decide p == decide q) = decide (p ↔ q) := by
  by_cases hp : p <;> by_cases hq : q <;> simp [hp, hq]

example : calculate_preserving_order_num (List.replicate 5 (0 : ℚ)) [1, 2, 3, 4, 5] = (10, 10) := by
  decide

example : pNormWeights [1/2, 7/10, 9/10] 3 = [125/1197, 343/1197, 729/1197] := by
  norm_num [pNormWeights]

/-- C2 (amended): `calculate_preserving_order_num` visits every index pair
`i < j` exactly once and counts a pair as order-preserving iff
`(y_true_i > y_true_j) ↔ (y_pred_i > y_pred_j)` — the Python comparison
`bool(y_true[idx] > y_true[inner]) == bool(y_pred[idx] > y_pred[inner])` —
so ties on both sides count as preserving; consequently, for
`y_true = [1,2,3,4,5]` and the constant-0 predictor the result is
`(10, 10)` and `preserving_order_p = 1`, not 0. -/
theorem C2_pair_counting (y_pred y_true : List ℚ) (h : y_true.length = y_pred.length) :
    (∀ i j : ℕ, (i, j) ∈ orderedPairs y_pred.length ↔ i < j ∧ j < y_pred.length)
    ∧ (orderedPairs y_pred.length).Nodup
    ∧ (calculate_preserving_order_num y_pred y_true).1
        = (orderedPairs y_pred.length).countP
            (fun pr => decide ((y_true.getD pr.1 0 > y_true.getD pr.2 0)
              ↔ (y_pred.getD pr.1 0 > y_pred.getD pr.2 0)))
    ∧ (calculate_preserving_order_num y_pred y_true).2 = (orderedPairs y_pred.length).length
    ∧ calculate_preserving_order_num (List.replicate 5 (0:ℚ)) [1, 2, 3, 4, 5] = (10, 10) := by
  refine ⟨fun i j => orderedPairs_mem _ i j, orderedPairs_nodup _, ?_, rfl, by decide⟩
  show (List.filter _ (orderedPairs y_pred.length)).length = _
  rw [List.countP_eq_length_filter]
  congr 1
  exact List.filter_congr (fun pr _ => beq_decide_iff _ _)

/-- C2 counterexample: the claim states that for `y_true = [1,2,3,4,5]` and a
predictor returning constant 0 the resulting `preserving_order_p` is 0; the
code returns 10 preserving pairs out of 10, i.e. a ratio of 1. -/
theorem C2_counterexample :
    ((calculate_preserving_order_num (List.replicate 5 (0:ℚ)) [1, 2, 3, 4, 5]).1 : ℚ)
      / ((calculate_preserving_order_num (List.replicate 5 (0:ℚ)) [1, 2, 3, 4, 5]).2 : ℚ) = 1
    ∧ ¬ (((calculate_preserving_order_num (List.replicate 5 (0:ℚ)) [1, 2, 3, 4, 5]).1 : ℚ)
      / ((calculate_preserving_order_num (List.replicate 5 (0:ℚ)) [1, 2, 3, 4, 5]).2 : ℚ) = 0) := by
  have hv : calculate_preserving_order_num (List.replicate 5 (0:ℚ)) [1, 2, 3, 4, 5] = (10, 10) := by
    decide
  rw [hv]
  norm_num

/-- C2 witness: the pair-counting characterization instantiated at the
constant-0 predictor against `[1,2,3,4,5]`. -/
theorem C2_pair_counting_witness :
    (([1, 2, 3, 4, 5] : List ℚ).length = (List.replicate 5 (0:ℚ)).length)
    ∧ ((∀ i j : ℕ, (i, j) ∈ orderedPairs (List.replicate 5 (0:ℚ)).length
          ↔ i < j ∧ j < (List.replicate 5 (0:ℚ)).length)
      ∧ (orderedPairs (List.replicate 5 (0:ℚ)).length).Nodup
      ∧ (calculate_preserving_order_num (List.replicate 5 (0:ℚ)) [1, 2, 3, 4, 5]).1
          = (orderedPairs (List.replicate 5 (0:ℚ)).length).countP
              (fun pr => decide ((([1, 2, 3, 4, 5] : List ℚ).getD pr.1 0 > ([1, 2, 3, 4, 5] : List ℚ).getD pr.2 0)
                ↔ ((List.replicate 5 (0:ℚ)).getD pr.1 0 > (List.replicate 5 (0:ℚ)).getD pr.2 0)))
      ∧ (calculate_preserving_order_num (List.replicate 5 (0:ℚ)) [1, 2, 3, 4, 5]).2
          = (orderedPairs (List.replicate 5 (0:ℚ)).length).length
      ∧ calculate_preserving_order_num (List.replicate 5 (0:ℚ)) [1, 2, 3, 4, 5] = (10, 10)) :=
  ⟨by decide, C2_pair_counting (List.replicate 5 (0:ℚ)) [1, 2, 3, 4, 5] (by decide)⟩

/-- Summing a list divided elementwise by a constant. -/
theorem sum_map_div (l : List ℚ) (s : ℚ) : (l.map (· / s)).sum = l.sum / s := by
  induction l with
  | nil => simp
  | cons a t ih => simp [ih, add_div]

/-- C8: with a non-zero denominator, `rank_loss_p_norm` assigns
`w_r = p_r^P / Σ_k p_k^P`, the weights sum to 1, and for
`p = [0.5, 0.7, 0.9]`, `P = 3` the weights are
`[0.125, 0.343, 0.729]` divided by their sum `1.197`. -/
theorem C8_p_norm_weights (p : List ℚ) (P : ℕ) (h : (p.map (· ^ P)).sum ≠ 0) :
    pNormWeights p P = p.map (fun x => x ^ P / (p.map (· ^ P)).sum)
    ∧ (pNormWeights p P).sum = 1
    ∧ pNormWeights [1/2, 7/10, 9/10] 3 = [125/1197, 343/1197, 729/1197]
    ∧ pNormWeights [1/2, 7/10, 9/10] 3
        = ([125/1000, 343/1000, 729/1000] : List ℚ).map (· / (1197/1000)) := by
  refine ⟨rfl, ?_, by norm_num [pNormWeights], by norm_num [pNormWeights]⟩
  have hmap : pNormWeights p P = (p.map (· ^ P)).map (· / (p.map (· ^ P)).sum) := by
    rw [pNormWeights, List.map_map]
    rfl
  rw [hmap, sum_map_div, div_self h]

/-- C8 witness: the p-norm weighting at the concrete probabilities
`[0.5, 0.7, 0.9]` of the spec scenario. -/
theorem C8_p_norm_weights_witness :
    ((([1/2, 7/10, 9/10] : List ℚ).map (· ^ 3)).sum ≠ 0)
    ∧ (pNormWeights [1/2, 7/10, 9/10] 3
        = ([1/2, 7/10, 9/10] : List ℚ).map
            (fun x => x ^ 3 / (([1/2, 7/10, 9/10] : List ℚ).map (· ^ 3)).sum)
      ∧ (pNormWeights [1/2, 7/10, 9/10] 3).sum = 1
      ∧ pNormWeights [1/2, 7/10, 9/10] 3 = [125/1197, 343/1197, 729/1197]
      ∧ pNormWeights [1/2, 7/10, 9/10] 3
          = ([125/1000, 343/1000, 729/1000] : List ℚ).map (· / (1197/1000))) :=
  ⟨by norm_num, C8_p_norm_weights [1/2, 7/10, 9/10] 3 (by norm_num)⟩

/-- The numpy float→int64 cast: truncation toward zero.  It is performed
silently when a float prediction vector is assigned into the int-dtype
array `cv_pred = np.array([0] * len(test_y))` (lines 241/249 and 283/292). -/
def npIntCast (q : ℚ) : ℤ := if 0 ≤ q then ⌊q⌋ else ⌈q⌉

/-- The contents of the array `cv_pred` after the 5-fold loop: KFold
partitions the index range, so position `j` holds the fresh regressor's
out-of-fold prediction at point `j` — cast to int64 by the assignment into
the int array.  `raw` is the oracle list of the regressor's float
predictions by index. -/
def cvPredFromRaw (raw : List ℚ) : List ℚ := raw.map (fun q => ((npIntCast q : ℤ) : ℚ))

/-- The weight-learning method selected at construction (`weight_method`).
`other` stands for any string different from the two supported names, on
which line 299 raises `ValueError`. -/
inductive WeightMethod
  | rank_loss_p_norm
  | rank_loss_prob
  | other
  deriving DecidableEq

/-- Oracle inputs read by `update_weight`: the top-fidelity targets
`test_y = target_y[max_r]` and the outputs of external collaborators
(surrogate predictions on `test_x`, fresh-regressor out-of-fold
predictions, standard-normal RNG draws), indexed exactly as the source
reads them. -/
structure UWInput where
  testY : List ℚ
  meansLower : List (List ℚ)
  varsLower : List (List ℚ)
  cvRaw : List ℚ
  probZs : List (List (List ℚ))
  probCvRaw : List (List ℚ)

/-- The mutable state touched by `update_weight`: the per-budget ensemble
weights (aligned with `r_list`), the snapshot history, the change counter
and the contents of the saved-weights file. -/
structure UWState where
  surrogateWeight : List ℚ
  histWeights : List (List ℚ)
  weightChangedCnt : ℕ
  savedWeightsFile : List (List ℚ)

/-- Lines 225-252: the list `preserving_order_p` built by the
`rank_loss_p_norm` branch.  Entry `i < K-1` scores the mean prediction of
surrogate `r_list[i]` on the top-fidelity points; the last entry scores the
5-fold cross-validation predictions, or is 0 when `len(test_y) < 2*fold_num`
(`fold_num = 5`). -/
def pNormP (K : ℕ) (inp : UWInput) : List ℚ :=
  (List.range K).map (fun i =>
    if i ≠ K - 1 then
      let c := calculate_preserving_order_num (inp.meansLower.getD i []) inp.testY
      (c.1 : ℚ) / (c.2 : ℚ)
    else
      if inp.testY.length < 2 * 5 then 0
      else
        let c := calculate_preserving_order_num (cvPredFromRaw inp.cvRaw) inp.testY
        (c.1 : ℚ) / (c.2 : ℚ))

/-- numpy `rng.normal(loc, scale)` under the standard-normal
reparameterization: the draw is `loc + scale * z` where `z` is a standard
normal variate; numpy's `scale` parameter is the standard deviation of the
resulting distribution. -/
def numpyNormal (loc scale z : ℚ) : ℚ := loc + scale * z

/-- Modelled from the spec: a draw from `N(mu, sigma^2)` — standard
deviation `sigma` — under the same reparameterization `mu + sigma * z`. -/
def specNormalSample (mu sigma z : ℚ) : ℚ := mu + sigma * z

/-- Elementwise three-list zip, used for vectorized numpy sampling. -/
def zipWith3 (f : ℚ → ℚ → ℚ → ℚ) : List ℚ → List ℚ → List ℚ → List ℚ
  | a :: as, b :: bs, c :: cs => f a b c :: zipWith3 f as bs cs
  | _, _, _ => []

/-- Line 272: `sampled_y = self.rng.normal(mean_list[idx], var_list[idx])` —
the predictive variance vector `var_list[idx]` is passed as numpy's scale
(standard deviation) parameter.  `probZs` supplies the standard-normal
draws of round `round`. -/
def probSampledY (inp : UWInput) (round idx : ℕ) : List ℚ :=
  zipWith3 numpyNormal (inp.meansLower.getD idx []) (inp.varsLower.getD idx [])
    ((inp.probZs.getD round []).getD idx [])

/-- Lines 268-294: the list `order_preseving_nums` of one Monte-Carlo round
of `rank_loss_prob`: one entry per lower-fidelity surrogate, then the
cross-validation entry (0 when `len(test_y) < 2*fold_num`; otherwise the
sampled out-of-fold predictions, cast through the int64 `cv_pred` array). -/
def probRoundNums (K : ℕ) (inp : UWInput) (round : ℕ) : List ℕ :=
  ((List.range (K - 1)).map (fun idx =>
    (calculate_preserving_order_num (probSampledY inp round idx) inp.testY).1))
  ++ [if inp.testY.length < 2 * 5 then 0
      else (calculate_preserving_order_num (cvPredFromRaw (inp.probCvRaw.getD round []))
              inp.testY).1]

/-- `np.argmax` on a list: index of the first occurrence of the maximum
(0 for the empty list). -/
def argmaxFirst : List ℕ → ℕ
  | [] => 0
  | x :: xs =>
    let j := argmaxFirst xs
    if xs.getD j 0 > x then j + 1 else 0

/-- Lines 265-297: the Monte-Carlo tally and final weights of
`rank_loss_prob`.  `sample_num = 100` rounds are drawn; each round
increments `min_probability_array[np.argmax(order_preseving_nums)]`, and
the weights are the tallies divided by `sample_num`. -/
def rankLossProbWeights (K : ℕ) (inp : UWInput) : List ℚ :=
  let tally := (List.range 100).foldl
    (fun t r =>
      let m := argmaxFirst (probRoundNums K inp r)
      t.set m (t.getD m 0 + 1))
    (List.replicate K 0)
  tally.map (fun c : ℕ => (c : ℚ) / 100)

/-- Shallow embedding of `async_mqMFES.update_weight` (lines 211-322) over
the oracle inputs.  `K = len(r_list)` is the number of budgets
(`s_max + 1`).  The result is `none` when the source raises (`ValueError`
on an unknown weight method, line 299); otherwise the new weights are
assigned to every budget, the snapshot is appended to `hist_weights`, the
change counter is incremented, and the snapshot file is rewritten with the
full history (`np.save(..., np.asarray(self.hist_weights))`). -/
def update_weight (method : WeightMethod) (powerNum K : ℕ) (inp : UWInput)
    (st : UWState) : Option UWState :=
  let newWeights? : Option (List ℚ) :=
    if 3 ≤ inp.testY.length then
      match method with
      | .rank_loss_p_norm => some (pNormWeights (pNormP K inp) powerNum)
      | .rank_loss_prob => some (rankLossProbWeights K inp)
      | .other => none
    else
      some ((List.range K).map (fun i => st.surrogateWeight.getD i 0))
  newWeights?.map (fun nw =>
    { surrogateWeight := (List.range K).map (fun i => nw.getD i 0)
      histWeights := st.histWeights ++ [nw]
      weightChangedCnt := st.weightChangedCnt + 1
      savedWeightsFile := st.histWeights ++ [nw] })

/-- Reading a list of length `K` back index by index reproduces it. -/
theorem map_range_getD (l : List ℚ) (K : ℕ) (h : l.length = K) :
    (List.range K).map (fun i => l.getD i 0) = l := by
  subst h
  apply List.ext_getElem (by simp)
  intro i h1 h2
  simp [List.getD_eq_getElem?_getD, List.getElem?_eq_getElem h2]

/-- C7: when fewer than 3 top-fidelity observations exist, `update_weight`
succeeds (no error) and every per-budget weight keeps its previous value:
the old weights are read back, copied, and reassigned unchanged. -/
theorem C7_insufficient_data (method : WeightMethod) (powerNum K : ℕ)
    (inp : UWInput) (st : UWState)
    (hlen : inp.testY.length < 3) (hK : st.surrogateWeight.length = K) :
    (update_weight method powerNum K inp st).map (fun s => s.surrogateWeight)
      = some st.surrogateWeight := by
  have hold := map_range_getD st.surrogateWeight K hK
  simp only [update_weight, if_neg (by omega : ¬ 3 ≤ inp.testY.length), hold,
    Option.map_some']

/-- Concrete oracle input with two top-fidelity points (insufficient data). -/
def inpShort : UWInput :=
  { testY := [1, 2], meansLower := [], varsLower := [], cvRaw := [],
    probZs := [], probCvRaw := [] }

/-- Concrete previous optimizer state with two budgets. -/
def stTwo : UWState :=
  { surrogateWeight := [0, 1], histWeights := [], weightChangedCnt := 0,
    savedWeightsFile := [] }

/-- C7 witness: the insufficient-data path at two observations and two
budgets. -/
theorem C7_insufficient_data_witness :
    (inpShort.testY.length < 3 ∧ stTwo.surrogateWeight.length = 2)
    ∧ (update_weight .rank_loss_p_norm 3 2 inpShort stTwo).map (fun s => s.surrogateWeight)
        = some stTwo.surrogateWeight :=
  ⟨⟨by decide, by decide⟩,
    C7_insufficient_data .rank_loss_p_norm 3 2 inpShort stTwo (by decide) (by decide)⟩

/-- C9: every `update_weight` call with a valid weight method — including
the insufficient-data path — appends exactly one snapshot to
`hist_weights`, increments `weight_changed_cnt` by exactly one, reassigns
all `K` per-budget weights from the appended snapshot, and rewrites the
snapshot file from the full `hist_weights` history. -/
theorem C9_bookkeeping (method : WeightMethod) (powerNum K : ℕ) (inp : UWInput)
    (st : UWState) (hm : method ≠ WeightMethod.other) :
    ∃ nw : List ℚ, update_weight method powerNum K inp st = some
      { surrogateWeight := (List.range K).map (fun i => nw.getD i 0)
        histWeights := st.histWeights ++ [nw]
        weightChangedCnt := st.weightChangedCnt + 1
        savedWeightsFile := st.histWeights ++ [nw] } := by
  unfold update_weight
  by_cases hlen : 3 ≤ inp.testY.length
  · cases method with
    | rank_loss_p_norm =>
      exact ⟨pNormWeights (pNormP K inp) powerNum, by rw [if_pos hlen]; rfl⟩
    | rank_loss_prob =>
      exact ⟨rankLossProbWeights K inp, by rw [if_pos hlen]; rfl⟩
    | other => exact absurd rfl hm
  · exact ⟨(List.range K).map (fun i => st.surrogateWeight.getD i 0), by rw [if_neg hlen]; rfl⟩

/-- C9 witness: the bookkeeping at a concrete state on the
insufficient-data path with the default p-norm method. -/
theorem C9_bookkeeping_witness :
    (WeightMethod.rank_loss_p_norm ≠ WeightMethod.other)
    ∧ ∃ nw : List ℚ, update_weight .rank_loss_p_norm 3 2 inpShort stTwo = some
        { surrogateWeight := (List.range 2).map (fun i => nw.getD i 0)
          histWeights := stTwo.histWeights ++ [nw]
          weightChangedCnt := stTwo.weightChangedCnt + 1
          savedWeightsFile := stTwo.histWeights ++ [nw] } :=
  ⟨by decide, C9_bookkeeping .rank_loss_p_norm 3 2 inpShort stTwo (by decide)⟩

/-- Concrete oracle input on which every order-preservation probability is
0: three top-fidelity targets `[1,2,3]` (too few for cross-validation) and
lower-fidelity mean predictions in strictly reversed order. -/
def inpDegenerate : UWInput :=
  { testY := [1, 2, 3], meansLower := [[3, 2, 1], [3, 2, 1]], varsLower := [],
    cvRaw := [], probZs := [], probCvRaw := [] }

/-- Concrete previous optimizer state with three budgets and the default
initial weights. -/
def stPrev : UWState :=
  { surrogateWeight := [0, 1/2, 1/2], histWeights := [], weightChangedCnt := 0,
    savedWeightsFile := [] }

/-- On the degenerate input every entry of `preserving_order_p` is 0. -/
theorem pNormP_inpDegenerate : pNormP 3 inpDegenerate = [0, 0, 0] := by
  have h0 : calculate_preserving_order_num ([3, 2, 1] : List ℚ) [1, 2, 3] = (0, 3) := by
    decide
  norm_num [pNormP, inpDegenerate, h0, List.range_succ]

/-- C1 counterexample: on an input where every order-preservation
probability is 0 (denominator `Σ p^P = 0`), `update_weight` does not retain
the previous weights `[0, 1/2, 1/2]`: it installs the unguarded quotient
vector (all zeros under the exact-arithmetic convention `x / 0 = 0`; `NaN`
in the float implementation).  No fallback branch exists at lines 254-256. -/
theorem C1_counterexample :
    (update_weight .rank_loss_p_norm 3 3 inpDegenerate stPrev).map
        (fun s => s.surrogateWeight) = some [0, 0, 0]
    ∧ stPrev.surrogateWeight = [0, 1/2, 1/2]
    ∧ ¬ ((update_weight .rank_loss_p_norm 3 3 inpDegenerate stPrev).map
        (fun s => s.surrogateWeight) = some stPrev.surrogateWeight) := by
  have hw : pNormWeights (pNormP 3 inpDegenerate) 3 = [0, 0, 0] := by
    rw [pNormP_inpDegenerate]
    norm_num [pNormWeights]
  have hproj : (update_weight .rank_loss_p_norm 3 3 inpDegenerate stPrev).map
      (fun s => s.surrogateWeight) = some [0, 0, 0] := by
    show some ((List.range 3).map
      (fun i => (pNormWeights (pNormP 3 inpDegenerate) 3).getD i 0)) = some [0, 0, 0]
    rw [hw]
    rfl
  refine ⟨hproj, rfl, ?_⟩
  rw [hproj]
  intro hcontra
  have h30 : ([0, 0, 0] : List ℚ) = [0, 1/2, 1/2] := by
    simpa [stPrev] using hcontra
  have h12 : (0 : ℚ) = 1/2 := by
    injection (List.tail_eq_of_cons_eq h30) with h12a
  norm_num at h12

/-- C1 (amended): `update_weight` has no zero-denominator guard.  With
`rank_loss_p_norm`, at least 3 top-fidelity points and `Σ_k p_k^P = 0`,
the call still succeeds and overwrites the previous weights with the
unguarded elementwise quotient `p^P / 0` — identically 0 under the
exact-arithmetic convention `x / 0 = 0` (`NaN` in the float
implementation).  Previous weights are not retained and no warning is
surfaced. -/
theorem C1_zero_denominator (powerNum K : ℕ) (inp : UWInput) (st : UWState)
    (hlen : 3 ≤ inp.testY.length)
    (hden : ((pNormP K inp).map (· ^ powerNum)).sum = 0) :
    (update_weight .rank_loss_p_norm powerNum K inp st).map (fun s => s.surrogateWeight)
      = some (List.replicate K 0) := by
  have hw : pNormWeights (pNormP K inp) powerNum
      = List.replicate (pNormP K inp).length 0 := by
    unfold pNormWeights
    rw [hden]
    simp only [div_zero]
    exact List.map_const' _ _
  have hstep : update_weight .rank_loss_p_norm powerNum K inp st
      = some { surrogateWeight := (List.range K).map
                 (fun i => (pNormWeights (pNormP K inp) powerNum).getD i 0)
               histWeights := st.histWeights ++ [pNormWeights (pNormP K inp) powerNum]
               weightChangedCnt := st.weightChangedCnt + 1
               savedWeightsFile := st.histWeights ++ [pNormWeights (pNormP K inp) powerNum] } := by
    unfold update_weight
    rw [if_pos hlen]
    rfl
  rw [hstep, Option.map_some']
  rw [hw]
  congr 1
  have hz : ∀ i : ℕ, (List.replicate (pNormP K inp).length (0:ℚ)).getD i 0 = 0 := by
    intro i
    simp only [List.getD_eq_getElem?_getD, List.getElem?_replicate]
    split <;> rfl
  calc (List.range K).map (fun i => (List.replicate (pNormP K inp).length (0:ℚ)).getD i 0)
      = (List.range K).map (fun _ => (0:ℚ)) := List.map_congr_left (fun i _ => hz i)
    _ = List.replicate K 0 := by rw [List.map_const']; simp

/-- C1 witness: the zero-denominator theorem at the concrete degenerate
input. -/
theorem C1_zero_denominator_witness :
    (3 ≤ inpDegenerate.testY.length
      ∧ ((pNormP 3 inpDegenerate).map (· ^ 3)).sum = 0)
    ∧ (update_weight .rank_loss_p_norm 3 3 inpDegenerate stPrev).map
        (fun s => s.surrogateWeight) = some (List.replicate 3 0) :=
  ⟨⟨by decide, by rw [pNormP_inpDegenerate]; norm_num⟩,
    C1_zero_denominator 3 3 inpDegenerate stPrev (by decide)
      (by rw [pNormP_inpDegenerate]; norm_num)⟩

/-- The int64 cast of a value in the unit interval is 0. -/
theorem npIntCast_unitInterval (q : ℚ) (h0 : 0 ≤ q) (h1 : q < 1) : npIntCast q = 0 := by
  rw [npIntCast, if_pos h0]
  exact Int.floor_eq_zero_iff.2 (Set.mem_Ico.2 ⟨h0, h1⟩)

/-- Reading a valid index with `getD` is plain indexing. -/
theorem getD_eq_getElem_of_lt (l : List ℚ) (i : ℕ) (h : i < l.length) :
    l.getD i 0 = l[i] := by
  simp [List.getD_eq_getElem?_getD, List.getElem?_eq_getElem h]

/-- Against strictly increasing targets, a strictly decreasing prediction
vector preserves no pair at all: every visited pair compares in opposite
directions. -/
theorem cpon_reversed_zero (p t : List ℚ) (hlen : t.length = p.length)
    (hp : List.Pairwise (· > ·) p) (ht : List.Pairwise (· < ·) t) :
    (calculate_preserving_order_num p t).1 = 0 := by
  have hfil : (calculate_preserving_order_num p t).1
      = (List.filter (fun pr =>
          decide (t.getD pr.1 0 > t.getD pr.2 0) == decide (p.getD pr.1 0 > p.getD pr.2 0))
          (orderedPairs p.length)).length := rfl
  rw [hfil, List.length_eq_zero, List.filter_eq_nil_iff]
  rintro ⟨i, j⟩ hmem
  obtain ⟨hij, hjn⟩ := (orderedPairs_mem _ i j).1 hmem
  have hin : i < p.length := lt_trans hij hjn
  have hpij : p.getD i 0 > p.getD j 0 := by
    rw [getD_eq_getElem_of_lt p i hin, getD_eq_getElem_of_lt p j hjn]
    exact List.pairwise_iff_getElem.1 hp i j hin hjn hij
  have htij : t.getD i 0 < t.getD j 0 := by
    rw [getD_eq_getElem_of_lt t i (by omega), getD_eq_getElem_of_lt t j (by omega)]
    exact List.pairwise_iff_getElem.1 ht i j (by omega) (by omega) hij
  have hnot : ¬ (t.getD i 0 > t.getD j 0) := lt_asymm htij
  rw [beq_decide_iff, decide_eq_true_eq]
  intro hiff
  exact hnot (hiff.2 hpij)

/-- Concrete oracle input for the cross-validation entry: ten top-fidelity
targets in strictly increasing order and fresh-regressor out-of-fold
predictions that are strictly decreasing floats inside the unit interval. -/
def inpCv : UWInput :=
  { testY := [1, 2, 3, 4, 5, 6, 7, 8, 9, 10]
    meansLower := []
    varsLower := []
    cvRaw := [10/11, 9/11, 8/11, 7/11, 6/11, 5/11, 4/11, 3/11, 2/11, 1/11]
    probZs := []
    probCvRaw := [] }

/-- On `inpCv` the int64 array contents are identically 0. -/
theorem cvPredFromRaw_inpCv : cvPredFromRaw inpCv.cvRaw = List.replicate 10 0 := by
  show cvPredFromRaw [10/11, 9/11, 8/11, 7/11, 6/11, 5/11, 4/11, 3/11, 2/11, 1/11]
      = List.replicate 10 0
  unfold cvPredFromRaw
  rw [List.map_cons, List.map_cons, List.map_cons, List.map_cons, List.map_cons,
    List.map_cons, List.map_cons, List.map_cons, List.map_cons, List.map_cons,
    List.map_nil]
  rw [npIntCast_unitInterval _ (by norm_num) (by norm_num),
    npIntCast_unitInterval _ (by norm_num) (by norm_num),
    npIntCast_unitInterval _ (by norm_num) (by norm_num),
    npIntCast_unitInterval _ (by norm_num) (by norm_num),
    npIntCast_unitInterval _ (by norm_num) (by norm_num),
    npIntCast_unitInterval _ (by norm_num) (by norm_num),
    npIntCast_unitInterval _ (by norm_num) (by norm_num),
    npIntCast_unitInterval _ (by norm_num) (by norm_num),
    npIntCast_unitInterval _ (by norm_num) (by norm_num),
    npIntCast_unitInterval _ (by norm_num) (by norm_num)]
  rfl

/-- C3: the source's out-of-fold predictions do not enter `ŷ` exactly as
predicted: `cv_pred = np.array([0] * len(test_y))` is an int64 array, so
every float prediction is truncated toward zero on assignment.  A
prediction of 1/2 is stored as 0; on `inpCv` the strictly decreasing
predictions (which preserve 0 of 45 pairs against the increasing targets)
are all stored as 0, and the resulting score is a perfect 1.  The
short-data behavior the claim also states does hold: with fewer than
`2*fold_num` points the last entry is 0 and the list is still completed. -/
theorem C3_truncation_bug :
    npIntCast (1/2) = 0
    ∧ ((1 : ℚ)/2 ≠ 0)
    ∧ cvPredFromRaw inpCv.cvRaw = List.replicate 10 0
    ∧ List.Pairwise (· > ·) inpCv.cvRaw
    ∧ (calculate_preserving_order_num inpCv.cvRaw inpCv.testY).1 = 0
    ∧ (calculate_preserving_order_num (cvPredFromRaw inpCv.cvRaw) inpCv.testY) = (45, 45)
    ∧ (pNormP 3 inpCv).getD 2 0 = 1
    ∧ (pNormP 3 inpDegenerate).getD 2 0 = 0
    ∧ (pNormP 3 inpDegenerate).length = 3 := by
  haveI : IsTrans ℚ (· > ·) := ⟨fun _ _ _ h1 h2 => lt_trans h2 h1⟩
  haveI : IsTrans ℚ (· < ·) := ⟨fun _ _ _ h1 h2 => lt_trans h1 h2⟩
  have hchain : List.Chain' (· > ·) inpCv.cvRaw := by
    show List.Chain' (· > ·)
      [10/11, 9/11, 8/11, 7/11, 6/11, 5/11, 4/11, 3/11, 2/11, 1/11]
    norm_num [List.chain'_cons]
  have hpair : List.Pairwise (· > ·) inpCv.cvRaw := List.chain'_iff_pairwise.1 hchain
  have htchain : List.Chain' (· < ·) inpCv.testY := by
    show List.Chain' (· < ·) [1, 2, 3, 4, 5, 6, 7, 8, 9, 10]
    norm_num [List.chain'_cons]
  have htpair : List.Pairwise (· < ·) inpCv.testY := List.chain'_iff_pairwise.1 htchain
  have h6 : calculate_preserving_order_num (cvPredFromRaw inpCv.cvRaw) inpCv.testY
      = (45, 45) := by
    rw [cvPredFromRaw_inpCv]
    decide
  have h7sel : (pNormP 3 inpCv).getD 2 0
      = ((calculate_preserving_order_num (cvPredFromRaw inpCv.cvRaw) inpCv.testY).1 : ℚ)
        / ((calculate_preserving_order_num (cvPredFromRaw inpCv.cvRaw) inpCv.testY).2 : ℚ) :=
    rfl
  refine ⟨npIntCast_unitInterval _ (by norm_num) (by norm_num), by norm_num,
    cvPredFromRaw_inpCv, hpair, cpon_reversed_zero _ _ rfl hpair htpair, h6, ?_, rfl, rfl⟩
  rw [h7sel, h6]
  norm_num

/-- `np.argmax` returns a valid index on a non-empty list. -/
theorem argmaxFirst_lt_length (l : List ℕ) (h : l ≠ []) : argmaxFirst l < l.length := by
  induction l with
  | nil => exact absurd rfl h
  | cons x xs ih =>
    show (if xs.getD (argmaxFirst xs) 0 > x then argmaxFirst xs + 1 else 0) < xs.length + 1
    by_cases hc : xs.getD (argmaxFirst xs) 0 > x
    · rw [if_pos hc]
      have hxs : xs ≠ [] := by
        intro he
        rw [he] at hc
        simp [List.getD_nil] at hc
      have := ih hxs
      omega
    · rw [if_neg hc]
      omega

/-- `np.argmax` attains the maximum. -/
theorem argmaxFirst_le (l : List ℕ) (j : ℕ) (hj : j < l.length) :
    l.getD j 0 ≤ l.getD (argmaxFirst l) 0 := by
  induction l generalizing j with
  | nil => simp at hj
  | cons x xs ih =>
    show (x :: xs).getD j 0
        ≤ (x :: xs).getD (if xs.getD (argmaxFirst xs) 0 > x then argmaxFirst xs + 1 else 0) 0
    by_cases hc : xs.getD (argmaxFirst xs) 0 > x
    · rw [if_pos hc]
      cases j with
      | zero => simpa using le_of_lt hc
      | succ k =>
        have hk : k < xs.length := by simpa using hj
        simpa using ih k hk
    · rw [if_neg hc]
      cases j with
      | zero => simp
      | succ k =>
        have hk : k < xs.length := by simpa using hj
        have hle : xs.getD (argmaxFirst xs) 0 ≤ x := Nat.not_lt.1 hc
        simpa using le_trans (ih k hk) hle

/-- `np.argmax` breaks ties toward the first index: every earlier entry is
strictly below the maximum. -/
theorem argmaxFirst_first (l : List ℕ) (j : ℕ) (hj : j < argmaxFirst l) :
    l.getD j 0 < l.getD (argmaxFirst l) 0 := by
  induction l generalizing j with
  | nil => simp [argmaxFirst] at hj
  | cons x xs ih =>
    have hdef : argmaxFirst (x :: xs)
        = (if xs.getD (argmaxFirst xs) 0 > x then argmaxFirst xs + 1 else 0) := rfl
    by_cases hc : xs.getD (argmaxFirst xs) 0 > x
    · rw [hdef, if_pos hc] at hj ⊢
      cases j with
      | zero => simpa using hc
      | succ k =>
        have hk : k < argmaxFirst xs := by omega
        simpa using ih k hk
    · rw [hdef, if_neg hc] at hj
      omega

/-- The Monte-Carlo tally fold preserves the tally length. -/
theorem tally_foldl_length (g : ℕ → ℕ) (rs t : List ℕ) :
    (rs.foldl (fun t r => t.set (g r) (t.getD (g r) 0 + 1)) t).length = t.length := by
  induction rs generalizing t with
  | nil => rfl
  | cons r rs ih =>
    rw [List.foldl_cons, ih]
    simp

/-- The tally fold counts, per index, the rounds whose argmax hits it. -/
theorem tally_foldl_getD (g : ℕ → ℕ) (i : ℕ) (rs : List ℕ) :
    ∀ t : List ℕ, i < t.length →
      ((rs.foldl (fun t r => t.set (g r) (t.getD (g r) 0 + 1)) t).getD i 0)
        = t.getD i 0 + rs.countP (fun r => decide (g r = i)) := by
  induction rs with
  | nil => intro t ht; simp
  | cons r rs ih =>
    intro t ht
    rw [List.foldl_cons, List.countP_cons,
      ih _ (by simpa [List.length_set] using ht)]
    by_cases hgi : g r = i
    · subst hgi
      have hset : (t.set (g r) (t.getD (g r) 0 + 1)).getD (g r) 0 = t.getD (g r) 0 + 1 := by
        simp [List.getD_eq_getElem?_getD, List.getElem?_set_self ht]
      rw [hset]
      simp
      omega
    · have hset : (t.set (g r) (t.getD (g r) 0 + 1)).getD i 0 = t.getD i 0 := by
        simp [List.getD_eq_getElem?_getD, List.getElem?_set_ne hgi]
      rw [hset]
      simp [hgi]

/-- Projecting an entry of the tally after the division by `sample_num`. -/
theorem getD_map_div (tl : List ℕ) (i : ℕ) (hi : i < tl.length) :
    (tl.map (fun c : ℕ => (c : ℚ) / 100)).getD i 0 = ((tl.getD i 0 : ℕ) : ℚ) / 100 := by
  rw [List.getD_eq_getElem?_getD, List.getD_eq_getElem?_getD, List.getElem?_map,
    List.getElem?_eq_getElem hi]
  rfl

/-- C5 (amended): `rank_loss_prob` draws exactly 100 Monte-Carlo rounds; the
sampled vector for a budget below top is `μ + σ²·z` elementwise — numpy's
scale parameter receives the predictive variance, so the draw has standard
deviation `σ²` rather than `σ`; each round increments the tally at the
argmax of the per-budget counts with ties resolved to the first index, and
the final weight of budget `i` is the number of rounds whose argmax equals
`i`, divided by 100. -/
theorem C5_monte_carlo (K i : ℕ) (inp : UWInput) (hK : 1 ≤ K) (hi : i < K) :
    (rankLossProbWeights K inp).length = K
    ∧ (rankLossProbWeights K inp).getD i 0
        = (((List.range 100).countP
            (fun r => decide (argmaxFirst (probRoundNums K inp r) = i)) : ℕ) : ℚ) / 100
    ∧ (∀ loc scale z : ℚ, numpyNormal loc scale z = loc + scale * z)
    ∧ (∀ r idx : ℕ, probSampledY inp r idx
        = zipWith3 numpyNormal (inp.meansLower.getD idx []) (inp.varsLower.getD idx [])
            ((inp.probZs.getD r []).getD idx []))
    ∧ (∀ r : ℕ, (probRoundNums K inp r).length = K)
    ∧ (∀ r j : ℕ, j < K → (probRoundNums K inp r).getD j 0
        ≤ (probRoundNums K inp r).getD (argmaxFirst (probRoundNums K inp r)) 0)
    ∧ (∀ r j : ℕ, j < argmaxFirst (probRoundNums K inp r) →
        (probRoundNums K inp r).getD j 0
          < (probRoundNums K inp r).getD (argmaxFirst (probRoundNums K inp r)) 0) := by
  have hlenR : ∀ r : ℕ, (probRoundNums K inp r).length = K := by
    intro r
    show ((List.range (K - 1)).map _ ++ [_]).length = K
    simp only [List.length_append, List.length_map, List.length_range, List.length_singleton]
    omega
  have hW : rankLossProbWeights K inp
      = ((List.range 100).foldl
          (fun t r => t.set (argmaxFirst (probRoundNums K inp r))
            (t.getD (argmaxFirst (probRoundNums K inp r)) 0 + 1))
          (List.replicate K 0)).map (fun c : ℕ => (c : ℚ) / 100) := rfl
  have htlen : ((List.range 100).foldl
      (fun t r => t.set (argmaxFirst (probRoundNums K inp r))
        (t.getD (argmaxFirst (probRoundNums K inp r)) 0 + 1))
      (List.replicate K 0)).length = K := by
    rw [tally_foldl_length (fun r => argmaxFirst (probRoundNums K inp r))]
    simp
  refine ⟨?_, ?_, fun _ _ _ => rfl, fun _ _ => rfl, hlenR, ?_, ?_⟩
  · rw [hW, List.length_map]
    exact htlen
  · rw [hW]
    rw [getD_map_div _ i (by rw [htlen]; exact hi)]
    rw [tally_foldl_getD (fun r => argmaxFirst (probRoundNums K inp r)) i
      (List.range 100) (List.replicate K 0) (by simpa using hi)]
    simp [List.getD_eq_getElem?_getD, List.getElem?_replicate, hi]
  · intro r j hj
    exact argmaxFirst_le _ j (by rw [hlenR r]; exact hj)
  · intro r j hj
    exact argmaxFirst_first _ j hj

/-- C5 counterexample: line 272 passes the predictive variance as numpy's
scale (standard deviation) parameter.  With mean 0, variance 4 and
standard-normal draw `z = 1`, the code's sample is `0 + 4·1 = 4`, while a
draw from `N(0, 4)` — standard deviation 2, the unique non-negative square
root of 4 — reparameterizes to `0 + 2·1 = 2`. -/
theorem C5_counterexample :
    numpyNormal 0 4 1 = 4
    ∧ (2 : ℚ) ^ 2 = 4
    ∧ (0 : ℚ) ≤ 2
    ∧ specNormalSample 0 2 1 = 2
    ∧ numpyNormal 0 4 1 ≠ specNormalSample 0 2 1 := by
  norm_num [numpyNormal, specNormalSample]

/-- Concrete oracle input for the Monte-Carlo witness: three top-fidelity
targets, one lower-fidelity surrogate with constant predictions. -/
def inpProb : UWInput :=
  { testY := [1, 2, 3], meansLower := [[0, 0, 0]], varsLower := [[0, 0, 0]],
    cvRaw := [], probZs := [], probCvRaw := [] }

/-- C5 witness: the Monte-Carlo characterization at two budgets, index 0. -/
theorem C5_monte_carlo_witness :
    ((1 : ℕ) ≤ 2 ∧ (0 : ℕ) < 2)
    ∧ ((rankLossProbWeights 2 inpProb).length = 2
      ∧ (rankLossProbWeights 2 inpProb).getD 0 0
          = (((List.range 100).countP
              (fun r => decide (argmaxFirst (probRoundNums 2 inpProb r) = 0)) : ℕ) : ℚ) / 100
      ∧ (∀ loc scale z : ℚ, numpyNormal loc scale z = loc + scale * z)
      ∧ (∀ r idx : ℕ, probSampledY inpProb r idx
          = zipWith3 numpyNormal (inpProb.meansLower.getD idx [])
              (inpProb.varsLower.getD idx [])
              ((inpProb.probZs.getD r []).getD idx []))
      ∧ (∀ r : ℕ, (probRoundNums 2 inpProb r).length = 2)
      ∧ (∀ r j : ℕ, j < 2 → (probRoundNums 2 inpProb r).getD j 0
          ≤ (probRoundNums 2 inpProb r).getD (argmaxFirst (probRoundNums 2 inpProb r)) 0)
      ∧ (∀ r j : ℕ, j < argmaxFirst (probRoundNums 2 inpProb r) →
          (probRoundNums 2 inpProb r).getD j 0
            < (probRoundNums 2 inpProb r).getD (argmaxFirst (probRoundNums 2 inpProb r)) 0)) :=
  ⟨⟨by decide, by decide⟩, C5_monte_carlo 2 0 inpProb (by decide) (by decide)⟩

/-- The state read and written by the weight-update trigger block of
`choose_next` (lines 139-147): the previously served budget
(`last_n_iteration`, `None` before the first call), the warm-up counter
`weight_update_id`, the `update_enable` flag, `s_max`, and a counter of
`update_weight()` invocations standing for the call itself. -/
structure TrigState where
  lastNIteration : Option ℕ
  weightUpdateId : ℕ
  updateEnable : Bool
  sMax : ℕ
  weightUpdates : ℕ

/-- Shallow embedding of the trigger block of `choose_next` (lines
139-147).  When the budget to serve differs from `last_n_iteration`,
`update_weight()` is called iff `update_enable` holds and
`weight_update_id > s_max`, and `weight_update_id` is incremented — both
only inside the changed branch; `last_n_iteration` is assigned on every
call. -/
def chooseNextTrigger (st : TrigState) (nextN : ℕ) : TrigState :=
  let st1 :=
    if st.lastNIteration ≠ some nextN then
      let st2 :=
        if st.updateEnable ∧ st.weightUpdateId > st.sMax then
          { st with weightUpdates := st.weightUpdates + 1 }
        else st
      { st2 with weightUpdateId := st2.weightUpdateId + 1 }
    else st
  { st1 with lastNIteration := some nextN }

/-- C4 (amended): on every call `budget_changed = (budget ≠
last_budget_served)` decides the block; the Weight Learner runs exactly
when the budget changed, updates are enabled and `weight_update_id >
s_max`; `weight_update_id` is incremented exactly when the budget changed —
not on every call; `last_budget_served` is set to the served budget on
every call. -/
theorem C4_trigger (st : TrigState) (nextN : ℕ) :
    (chooseNextTrigger st nextN).weightUpdates
      = st.weightUpdates
        + (if st.lastNIteration ≠ some nextN ∧ st.updateEnable ∧ st.weightUpdateId > st.sMax
           then 1 else 0)
    ∧ (chooseNextTrigger st nextN).weightUpdateId
      = st.weightUpdateId + (if st.lastNIteration ≠ some nextN then 1 else 0)
    ∧ (chooseNextTrigger st nextN).lastNIteration = some nextN
    ∧ (chooseNextTrigger st nextN).updateEnable = st.updateEnable
    ∧ (chooseNextTrigger st nextN).sMax = st.sMax := by
  unfold chooseNextTrigger
  by_cases h1 : st.lastNIteration ≠ some nextN
  · by_cases h2 : (st.updateEnable : Prop) ∧ st.weightUpdateId > st.sMax
    · simp [h1, h2]
    · simp [h1, h2]
  · simp [h1]

/-- A concrete trigger state about to be served the same budget again. -/
def trigSame : TrigState :=
  { lastNIteration := some 3, weightUpdateId := 7, updateEnable := true,
    sMax := 2, weightUpdates := 0 }

/-- C4 counterexample: the claim says `weight_update_id` is incremented on
every call; when the served budget equals `last_budget_served` the counter
is left untouched (the increment sits inside the budget-changed branch). -/
theorem C4_counterexample :
    (chooseNextTrigger trigSame 3).weightUpdateId = 7
    ∧ trigSame.weightUpdateId = 7
    ∧ ¬ ((chooseNextTrigger trigSame 3).weightUpdateId = trigSame.weightUpdateId + 1) := by
  decide

/-- Job status values from `utils` (`RUNNING`, `COMPLETED`, `PROMOTED`). -/
inductive JobStatus
  | RUNNING
  | COMPLETED
  | PROMOTED
  deriving DecidableEq

/-- A bracket job `[status, config, perf, extra_conf]`; the performance is
present once observed; configurations compare structurally
(`_config == config`). -/
structure Job (C : Type) where
  status : JobStatus
  config : C
  perf : Option ℚ
  deriving DecidableEq

/-- Modelled from the spec: `s_max = ⌊log_η R⌋`, set in the parent class
`async_mq_hb`, which lies outside the two source files. -/
def smaxSpec (eta R : ℕ) : ℕ := Nat.log eta R

/-- Modelled from the spec: the full-fidelity budget `R_top = η^{s_max}`,
the largest ladder level. -/
def RTopSpec (eta R : ℕ) : ℕ := eta ^ smaxSpec eta R

/-- The coordinator state touched by `update_observation`: the bracket
(jobs per rung), the budget ladder `iterate_r`, the configured maximum
budget `R`, the per-budget stores `target_x`/`target_y`, the incumbent
lists, the history container, and a log of surrogate training calls. -/
structure ObsState (C : Type) where
  bracket : List (List (Job C))
  iterateR : List ℕ
  R : ℕ
  targetX : ℕ → List C
  targetY : ℕ → List ℚ
  incumbentConfigs : List C
  incumbentPerfs : List ℚ
  historyAdds : List (C × ℚ)
  trainCalls : List ℕ

/-- The loop of lines 109-117: find the first job whose config equals
`config`, assert it is `RUNNING`, mark it `COMPLETED` and attach the
performance.  `none` when an assertion fails (no match: `assert updated`;
non-RUNNING first match: `assert _job_status == RUNNING`) — in either case
no job has been mutated. -/
def findAndComplete {C : Type} [DecidableEq C] :
    List (Job C) → C → ℚ → Option (List (Job C))
  | [], _, _ => none
  | j :: rest, config, perf =>
    if j.config = config then
      if j.status = JobStatus.RUNNING then
        some ({ j with status := JobStatus.COMPLETED, perf := some perf } :: rest)
      else none
    else (findAndComplete rest config perf).map (j :: ·)

/-- Shallow embedding of `async_mqMFES.update_observation` (lines 105-132).
`get_rung_id` (parent class, outside the source files) is modelled from
the spec as the index of the budget in the ladder; the surrogate
retraining of lines 129-132 is recorded as a training-call log entry. -/
def update_observation {C : Type} [DecidableEq C] (st : ObsState C) (config : C)
    (perf : ℚ) (nIteration : ℕ) : Option (ObsState C) :=
  let rungId := st.iterateR.findIdx (· = nIteration)
  (findAndComplete (st.bracket.getD rungId []) config perf).map (fun jobs2 =>
    { st with
      bracket := st.bracket.set rungId jobs2
      targetX := fun r => if r = nIteration then st.targetX nIteration ++ [config] else st.targetX r
      targetY := fun r => if r = nIteration then st.targetY nIteration ++ [perf] else st.targetY r
      incumbentConfigs :=
        if nIteration = st.R then st.incumbentConfigs ++ [config] else st.incumbentConfigs
      incumbentPerfs :=
        if nIteration = st.R then st.incumbentPerfs ++ [perf] else st.incumbentPerfs
      historyAdds :=
        if nIteration = st.R then st.historyAdds ++ [(config, perf)] else st.historyAdds
      trainCalls := st.trainCalls ++ [nIteration] })

/-- The completion loop ignores a prefix of non-matching jobs and completes
the first match when it is RUNNING. -/
theorem findAndComplete_found {C : Type} [DecidableEq C] (pre post : List (Job C))
    (j : Job C) (c : C) (perf : ℚ) (hpre : ∀ k ∈ pre, k.config ≠ c)
    (hc : j.config = c) (hs : j.status = JobStatus.RUNNING) :
    findAndComplete (pre ++ j :: post) c perf
      = some (pre ++ { j with status := JobStatus.COMPLETED, perf := some perf } :: post) := by
  induction pre with
  | nil => simp [findAndComplete, hc, hs]
  | cons k pre ih =>
    simp only [List.cons_append, findAndComplete, List.append_eq]
    rw [if_neg (hpre k (by simp))]
    rw [ih (fun k2 hk => hpre k2 (by simp [hk]))]
    rfl

/-- The completion loop fails when no job matches. -/
theorem findAndComplete_none {C : Type} [DecidableEq C] (jobs : List (Job C))
    (c : C) (perf : ℚ) (h : ∀ j ∈ jobs, j.config ≠ c) :
    findAndComplete jobs c perf = none := by
  induction jobs with
  | nil => rfl
  | cons j rest ih =>
    simp only [findAndComplete]
    rw [if_neg (h j (by simp))]
    rw [ih (fun k hk => h k (by simp [hk]))]
    rfl

/-- C6 (amended): an observation event completes the unique RUNNING job
with a structurally equal config at the budget's rung, appends the pair to
`D[budget]`, logs a surrogate training call, and extends the incumbent
store iff the budget equals the configured maximum `R` (line 123 compares
against `R`, which coincides with the ladder top `R_top` exactly when `R`
is a power of `η`); when no job at the rung matches, the call fails and no
state is produced. -/
theorem C6_observe {C : Type} [DecidableEq C] (st : ObsState C) (c : C) (perf : ℚ)
    (b : ℕ) (pre post : List (Job C)) (j : Job C)
    (hrung : st.bracket.getD (st.iterateR.findIdx (· = b)) [] = pre ++ j :: post)
    (hid : st.iterateR.findIdx (· = b) < st.bracket.length)
    (hpre : ∀ k ∈ pre, k.config ≠ c) (hc : j.config = c)
    (hs : j.status = JobStatus.RUNNING) :
    (∃ st2 : ObsState C, update_observation st c perf b = some st2
      ∧ st2.bracket.getD (st.iterateR.findIdx (· = b)) []
          = pre ++ { j with status := JobStatus.COMPLETED, perf := some perf } :: post
      ∧ st2.targetX b = st.targetX b ++ [c]
      ∧ st2.targetY b = st.targetY b ++ [perf]
      ∧ st2.incumbentConfigs
          = (if b = st.R then st.incumbentConfigs ++ [c] else st.incumbentConfigs)
      ∧ st2.incumbentPerfs
          = (if b = st.R then st.incumbentPerfs ++ [perf] else st.incumbentPerfs)
      ∧ st2.historyAdds
          = (if b = st.R then st.historyAdds ++ [(c, perf)] else st.historyAdds)
      ∧ st2.trainCalls = st.trainCalls ++ [b])
    ∧ (∀ (c2 : C) (perf2 : ℚ) (b2 : ℕ),
        (∀ k ∈ st.bracket.getD (st.iterateR.findIdx (· = b2)) [], k.config ≠ c2) →
        update_observation st c2 perf2 b2 = none) := by
  constructor
  · have hfc := findAndComplete_found pre post j c perf hpre hc hs
    refine ⟨{ st with
        bracket := st.bracket.set (st.iterateR.findIdx (· = b))
          (pre ++ { j with status := JobStatus.COMPLETED, perf := some perf } :: post)
        targetX := fun r => if r = b then st.targetX b ++ [c] else st.targetX r
        targetY := fun r => if r = b then st.targetY b ++ [perf] else st.targetY r
        incumbentConfigs :=
          if b = st.R then st.incumbentConfigs ++ [c] else st.incumbentConfigs
        incumbentPerfs :=
          if b = st.R then st.incumbentPerfs ++ [perf] else st.incumbentPerfs
        historyAdds := if b = st.R then st.historyAdds ++ [(c, perf)] else st.historyAdds
        trainCalls := st.trainCalls ++ [b] }, ?_, ?_, ?_, ?_, rfl, rfl, rfl, rfl⟩
    · show (findAndComplete (st.bracket.getD (st.iterateR.findIdx (· = b)) []) c perf).map _
        = some _
      rw [hrung, hfc, Option.map_some']
    · show ((st.bracket.set (st.iterateR.findIdx (· = b)) _).getD
        (st.iterateR.findIdx (· = b)) []) = _
      simp [List.getD_eq_getElem?_getD, List.getElem?_set_self hid]
    · show (if b = b then st.targetX b ++ [c] else st.targetX b) = st.targetX b ++ [c]
      rw [if_pos rfl]
    · show (if b = b then st.targetY b ++ [perf] else st.targetY b) = st.targetY b ++ [perf]
      rw [if_pos rfl]
  · intro c2 perf2 b2 hnone
    show (findAndComplete (st.bracket.getD (st.iterateR.findIdx (· = b2)) []) c2 perf2).map _
      = none
    rw [findAndComplete_none _ _ _ hnone]
    rfl

/-- A concrete coordinator state: `R = 10`, `η = 3`, ladder `[1, 3, 9]`,
one RUNNING job with config `0` at the top rung. -/
def obsSt : ObsState ℕ :=
  { bracket := [[], [], [{ status := JobStatus.RUNNING, config := 0, perf := none }]]
    iterateR := [1, 3, 9]
    R := 10
    targetX := fun _ => []
    targetY := fun _ => []
    incumbentConfigs := []
    incumbentPerfs := []
    historyAdds := []
    trainCalls := [] }

/-- C6 counterexample: with `R = 10`, `η = 3` the ladder tops out at
`R_top = 3^⌊log_3 10⌋ = 9 ≠ R`.  An observation at budget 9 — the
full-fidelity ladder level — succeeds and extends `D[9]`, yet the incumbent
store stays empty, because line 123 compares the budget against `R`, not
against the top ladder level the claim refers to. -/
theorem C6_counterexample :
    RTopSpec 3 10 = 9
    ∧ (update_observation obsSt 0 (1/2) 9).map (fun s => s.incumbentPerfs) = some []
    ∧ (update_observation obsSt 0 (1/2) 9).map (fun s => s.incumbentConfigs) = some []
    ∧ (update_observation obsSt 0 (1/2) 9).map (fun s => s.targetY 9) = some [1/2] := by
  refine ⟨?_, rfl, rfl, rfl⟩
  show 3 ^ Nat.log 3 10 = 9
  have hlog : Nat.log 3 10 = 2 :=
    Nat.log_eq_of_pow_le_of_lt_pow (by norm_num) (by norm_num)
  rw [hlog]
  norm_num

/-- C6 witness: the observation theorem at the concrete state, completing
the single RUNNING job at budget 9. -/
theorem C6_observe_witness :
    (obsSt.bracket.getD (obsSt.iterateR.findIdx (· = 9)) []
        = [] ++ ({ status := JobStatus.RUNNING, config := 0, perf := none } : Job ℕ) :: []
      ∧ obsSt.iterateR.findIdx (· = 9) < obsSt.bracket.length
      ∧ (∀ k ∈ ([] : List (Job ℕ)), k.config ≠ 0)
      ∧ ({ status := JobStatus.RUNNING, config := 0, perf := none } : Job ℕ).config = 0
      ∧ ({ status := JobStatus.RUNNING, config := 0, perf := none } : Job ℕ).status
          = JobStatus.RUNNING)
    ∧ ((∃ st2 : ObsState ℕ, update_observation obsSt 0 (1/2) 9 = some st2
        ∧ st2.bracket.getD (obsSt.iterateR.findIdx (· = 9)) []
            = [] ++ ({ status := JobStatus.COMPLETED, config := 0, perf := some (1/2) } : Job ℕ) :: []
        ∧ st2.targetX 9 = obsSt.targetX 9 ++ [0]
        ∧ st2.targetY 9 = obsSt.targetY 9 ++ [1/2]
        ∧ st2.incumbentConfigs
            = (if 9 = obsSt.R then obsSt.incumbentConfigs ++ [0] else obsSt.incumbentConfigs)
        ∧ st2.incumbentPerfs
            = (if 9 = obsSt.R then obsSt.incumbentPerfs ++ [1/2] else obsSt.incumbentPerfs)
        ∧ st2.historyAdds
            = (if 9 = obsSt.R then obsSt.historyAdds ++ [(0, 1/2)] else obsSt.historyAdds)
        ∧ st2.trainCalls = obsSt.trainCalls ++ [9])
      ∧ (∀ (c2 : ℕ) (perf2 : ℚ) (b2 : ℕ),
          (∀ k ∈ obsSt.bracket.getD (obsSt.iterateR.findIdx (· = b2)) [], k.config ≠ c2) →
          update_observation obsSt c2 perf2 b2 = none)) :=
  ⟨⟨rfl, by decide, by simp, rfl, rfl⟩,
    C6_observe obsSt 0 (1/2) 9 [] []
      { status := JobStatus.RUNNING, config := 0, perf := none }
      rfl (by decide) (by simp) rfl rfl⟩

/-- The value returned by a user `compute` implementation: a loss and
opaque info. -/
structure ComputeVal where
  loss : ℚ
  info : String

/-- The result dict built by `start_computation`:
`{'result': ..., 'exception': ...}`. -/
structure ResultDict where
  result : Option ComputeVal
  exception : Option String

/-- The worker/dispatcher state touched by `start_computation`: the `busy`
flag and the dispatcher's log of `callback.register_result(id, result)`
calls. -/
structure WorkerState where
  busy : Bool
  registered : List (ℕ × ResultDict)

/-- Shallow embedding of `Worker.start_computation`
(`litebo/core/distributed/worker.py`, lines 167-195).  The body runs after
the busy flag has been acquired; `outcome` is the behavior of the
user-supplied `compute` call — its return value, or the traceback string of
the exception it raised.  The `finally` block clears `busy` and registers
the result with the dispatcher callback exactly once in both outcomes, and
the method returns the result dict. -/
def start_computation (st : WorkerState) (jobId : ℕ)
    (outcome : Except String ComputeVal) : WorkerState × ResultDict :=
  let result : ResultDict :=
    match outcome with
    | .ok v => { result := some v, exception := none }
    | .error tb => { result := none, exception := some tb }
  ({ busy := false, registered := st.registered ++ [(jobId, result)] }, result)

/-- C10: every invocation of `start_computation` registers exactly one
result with the dispatcher callback and clears the worker's busy flag, in
both outcomes; on success the result dict carries the `compute` return
value with `exception = None`, and when `compute` raises it carries
`result = None` and the traceback string. -/
theorem C10_worker_result (st : WorkerState) (jobId : ℕ) (v : ComputeVal) (tb : String) :
    (start_computation st jobId (Except.ok v)).1.busy = false
    ∧ (start_computation st jobId (Except.error tb)).1.busy = false
    ∧ (start_computation st jobId (Except.ok v)).1.registered
        = st.registered ++ [(jobId, (start_computation st jobId (Except.ok v)).2)]
    ∧ (start_computation st jobId (Except.error tb)).1.registered
        = st.registered ++ [(jobId, (start_computation st jobId (Except.error tb)).2)]
    ∧ (start_computation st jobId (Except.ok v)).2
        = { result := some v, exception := none }
    ∧ (start_computation st jobId (Except.error tb)).2
        = { result := none, exception := some tb } :=
  ⟨rfl, rfl, rfl, rfl, rfl, rfl⟩
